import Mathlib

/-!
Shallow embedding of the probability-visualizer core
(`src/js/modules/SimulationEngine.js` and `src/js/modules/VisualizationEngine.js`)
together with theorems settling the specification claims.

Modelling conventions:
* JS numbers (`Math.random()` draws, probabilities) are modelled as rationals `ℚ`;
  counters, iteration counts and grid cells are `Nat` (they are integers in range
  in the source).
* The stream of `Math.random()` draws is an explicit parameter `rand : Nat → ℚ`
  (the draw consumed at iteration `i` is `rand i`).
* Wall-clock reads (`performance.now()`) and the external stop flag are explicit
  oracles indexed by the batch-loop iteration number.
* Fallible / unbounded loops are embedded with an explicit decreasing measure;
  the batch loop (whose termination in JS depends on wall time) takes a fuel
  parameter, and every theorem about it holds for every fuel value.
-/

namespace ProbVis

/-- `pUp = initialProb * Math.pow(decayFactor, counter)` (SimulationEngine.js line 51). -/
def pUp (initialProb decayFactor : ℚ) (counter : Nat) : ℚ :=
  initialProb * decayFactor ^ counter

/-- `cappedPUp = Math.max(0, Math.min(1, pUp))` (SimulationEngine.js line 54). -/
def cappedPUp (initialProb decayFactor : ℚ) (counter : Nat) : ℚ :=
  max 0 (min 1 (pUp initialProb decayFactor counter))

/-- One counter transition (SimulationEngine.js lines 57-61):
`if (Math.random() < cappedPUp) counter++ else counter = Math.max(0, counter - 1)`.
Nat subtraction models `Math.max(0, counter - 1)`. -/
def stepCounter (initialProb decayFactor rand : ℚ) (counter : Nat) : Nat :=
  if rand < cappedPUp initialProb decayFactor counter then counter + 1 else counter - 1

/-- `reason` field of a single-run result (SimulationEngine.js lines 81-82). -/
inductive TerminationReason where
  | success
  | iteration_limit
  | unknown
deriving DecidableEq, Repr

/-- Result object of `simulateRun` (SimulationEngine.js lines 75-83).
The wall-clock field `timeMs` is omitted (not modelled). -/
structure RunResult where
  path : List Nat
  completed : Bool
  iterations : Nat
  hitIterationLimit : Bool
  reason : TerminationReason
deriving DecidableEq, Repr

/-- The `while (counter < maxValue && iterations < iterationSafetyLimit)` loop of
`simulateRun` (SimulationEngine.js lines 30-64).  Each pass appends the
pre-transition counter to the path, steps the counter using the next random draw
`rand iterations`, and increments `iterations`.  The yielding / progress-callback
code inside the loop has no effect on the returned data and is not modelled. -/
def simLoop (initialProb decayFactor : ℚ) (maxValue limit : Nat) (rand : Nat → ℚ)
    (counter iterations : Nat) (path : List Nat) : Nat × Nat × List Nat :=
  if h : counter < maxValue ∧ iterations < limit then
    simLoop initialProb decayFactor maxValue limit rand
      (stepCounter initialProb decayFactor (rand iterations) counter)
      (iterations + 1) (path ++ [counter])
  else
    (counter, iterations, path)
termination_by limit - iterations
decreasing_by omega

/-- `this.defaultIterationSafetyLimit = 10000000` (SimulationEngine.js line 6). -/
def defaultIterationSafetyLimit : Nat := 10000000

/-- Assembly of the result object of `simulateRun` (SimulationEngine.js lines
66-83) from the loop's final `(counter, iterations, path)` state: if the loop
ended with `counter === maxValue` append the final value; then
`completed = (counter === maxValue)`, `hitIterationLimit = (iterations >= limit)`
and `reason = completed ? 'success' : hitIterationLimit ? 'iteration_limit' : 'unknown'`. -/
def mkRunResult (maxValue limit : Nat) (r : Nat × Nat × List Nat) : RunResult :=
  { path := if r.1 = maxValue then r.2.2 ++ [maxValue] else r.2.2
    completed := decide (r.1 = maxValue)
    iterations := r.2.1
    hitIterationLimit := decide (limit ≤ r.2.1)
    reason := if r.1 = maxValue then .success
              else if limit ≤ r.2.1 then .iteration_limit
              else .unknown }

/-- `simulateRun` (SimulationEngine.js lines 23-84): run the loop from
`counter = 0`, `iterations = 0`, empty path and assemble the result object. -/
def simulateRun (initialProb decayFactor : ℚ) (maxValue limit : Nat)
    (rand : Nat → ℚ) : RunResult :=
  mkRunResult maxValue limit (simLoop initialProb decayFactor maxValue limit rand 0 0 [])

/-- The transition shape of one step of a run path: delta `+1`, or delta `-1`
from a positive value, or the zero-delta self-loop at the floor `0`. -/
def validStep (a b : Nat) : Prop :=
  b = a + 1 ∨ (0 < a ∧ b + 1 = a) ∨ (a = 0 ∧ b = 0)

instance (a b : Nat) : Decidable (validStep a b) := by
  unfold validStep; infer_instance

lemma validStep_stepCounter (p q r : ℚ) (c : Nat) : validStep c (stepCounter p q r c) := by
  unfold stepCounter validStep
  split
  · left; rfl
  · rcases Nat.eq_zero_or_pos c with hc | hc
    · subst hc; right; right; exact ⟨rfl, rfl⟩
    · right; left; exact ⟨hc, by omega⟩

lemma stepCounter_le (p q r : ℚ) (c : Nat) : stepCounter p q r c ≤ c + 1 := by
  unfold stepCounter
  split <;> omega

/-- Master invariant of the simulation loop: starting from a state whose
accumulated `path ++ [counter]` is a valid chain, all of whose path entries are
below `maxValue`, and with `counter ≤ maxValue`, the loop ends with
`counter ≤ maxValue`, an exit condition (`counter = maxValue` or the iteration
limit reached), all path entries below `maxValue`, the chain property for the
final `path ++ [counter]`, and the input path as a prefix of the output path. -/
lemma simLoop_spec (p q : ℚ) (M L : Nat) (rand : Nat → ℚ) :
    ∀ (k counter iterations : Nat) (path : List Nat), L - iterations ≤ k →
    counter ≤ M → (∀ v ∈ path, v < M) → List.Chain' validStep (path ++ [counter]) →
    (simLoop p q M L rand counter iterations path).1 ≤ M ∧
    ((simLoop p q M L rand counter iterations path).1 = M ∨
      L ≤ (simLoop p q M L rand counter iterations path).2.1) ∧
    (∀ v ∈ (simLoop p q M L rand counter iterations path).2.2, v < M) ∧
    List.Chain' validStep ((simLoop p q M L rand counter iterations path).2.2 ++
      [(simLoop p q M L rand counter iterations path).1]) ∧
    ∃ t, (simLoop p q M L rand counter iterations path).2.2 = path ++ t := by
  intro k
  induction k with
  | zero =>
    intro c it path hk hcM hpath hchain
    have hexit : ¬ (c < M ∧ it < L) := by omega
    rw [simLoop, dif_neg hexit]
    refine ⟨hcM, ?_, hpath, hchain, [], by simp⟩
    show c = M ∨ L ≤ it
    omega
  | succ k ih =>
    intro c it path hk hcM hpath hchain
    by_cases h : c < M ∧ it < L
    · rw [simLoop, dif_pos h]
      have hstep := validStep_stepCounter p q (rand it) c
      have hc' : stepCounter p q (rand it) c ≤ M := by
        have := stepCounter_le p q (rand it) c
        omega
      have hpath' : ∀ v ∈ path ++ [c], v < M := by
        intro v hv
        rcases List.mem_append.mp hv with hv | hv
        · exact hpath v hv
        · simp at hv; omega
      have hchain' :
          List.Chain' validStep ((path ++ [c]) ++ [stepCounter p q (rand it) c]) := by
        rw [List.chain'_append]
        refine ⟨hchain, List.chain'_singleton _, ?_⟩
        intro x hx y hy
        simp [List.getLast?_concat] at hx
        simp at hy
        subst hx; subst hy
        exact hstep
      have hk' : L - (it + 1) ≤ k := by omega
      obtain ⟨h1, h2, h3, h4, t, ht⟩ :=
        ih (stepCounter p q (rand it) c) (it + 1) (path ++ [c]) hk' hc' hpath' hchain'
      exact ⟨h1, h2, h3, h4, [c] ++ t, by simpa [List.append_assoc] using ht⟩
    · rw [simLoop, dif_neg h]
      refine ⟨hcM, ?_, hpath, hchain, [], by simp⟩
      show c = M ∨ L ≤ it
      omega

/-- Claim C7: every result returned by `simulateRun` has `reason` equal to
`success` or `iteration_limit`; the third `'unknown'` branch of the ternary is
unreachable, since the loop can only exit with `counter = maxValue` or with
`iterations` at the safety limit. -/
theorem simulateRun_reason_never_unknown (p q : ℚ) (M L : Nat) (rand : Nat → ℚ) :
    (simulateRun p q M L rand).reason = TerminationReason.success ∨
    (simulateRun p q M L rand).reason = TerminationReason.iteration_limit := by
  obtain ⟨_, hexit, -, -, -⟩ :=
    simLoop_spec p q M L rand (L - 0) 0 0 [] (by omega) (by omega) (by simp)
      (by simp [List.chain'_singleton])
  unfold simulateRun mkRunResult
  rcases hr : simLoop p q M L rand 0 0 [] with ⟨c, it, path0⟩
  rw [hr] at hexit
  simp only at hexit ⊢
  rcases hexit with hc | hit
  · left; simp [hc]
  · by_cases hc : c = M
    · left; simp [hc]
    · right; simp [hc, hit]

/-- Claim C1: for positive target and positive iteration cap, every path returned
by `simulateRun` starts with `0` and every consecutive pair differs by `+1`, `-1`
or `0`, a zero delta occurring only at the floor (`validStep`). -/
theorem simulateRun_path_valid (p q : ℚ) (M L : Nat) (rand : Nat → ℚ)
    (hM : 0 < M) (hL : 0 < L) :
    (simulateRun p q M L rand).path.head? = some 0 ∧
    List.Chain' validStep (simulateRun p q M L rand).path := by
  have h0 : simLoop p q M L rand 0 0 [] =
      simLoop p q M L rand (stepCounter p q (rand 0) 0) 1 [0] := by
    rw [simLoop, dif_pos ⟨hM, hL⟩]
    rfl
  have hc1 : stepCounter p q (rand 0) 0 ≤ M := by
    have := stepCounter_le p q (rand 0) 0
    omega
  obtain ⟨hle, hexit, hmem, hchain, t, ht⟩ :=
    simLoop_spec p q M L rand (L - 1) (stepCounter p q (rand 0) 0) 1 [0]
      (by omega) hc1 (by intro v hv; simp at hv; omega)
      (by
        have : List.Chain' validStep [0, stepCounter p q (rand 0) 0] :=
          List.chain'_pair.mpr (validStep_stepCounter p q (rand 0) 0)
        simpa using this)
  rcases hr : simLoop p q M L rand (stepCounter p q (rand 0) 0) 1 [0] with ⟨c, it, path0⟩
  rw [hr] at hchain ht
  simp only at hchain ht
  have hpath0 : path0 = 0 :: t := by simpa using ht
  unfold simulateRun mkRunResult
  rw [h0, hr]
  simp only
  by_cases hc : c = M
  · subst hpath0
    simp only [hc, if_pos rfl]
    constructor
    · simp
    · rw [hc] at hchain
      simpa using hchain
  · subst hpath0
    simp only [if_neg hc]
    constructor
    · simp
    · exact (List.chain'_append.mp hchain).1

/-- Witness for C1 at a concrete instance. -/
theorem simulateRun_path_valid_witness :
    (simulateRun (1/2) (1/2) 2 5 (fun _ => 0)).path.head? = some 0 ∧
    List.Chain' validStep (simulateRun (1/2) (1/2) 2 5 (fun _ => 0)).path :=
  simulateRun_path_valid (1/2) (1/2) 2 5 (fun _ => 0) (by decide) (by decide)

/-- Claim C2: for positive target and positive iteration cap, the `completed`
flag is true iff the last element of the returned path equals the target, and a
result never has both `completed = true` and `reason = iteration_limit`. -/
theorem simulateRun_completed_iff_last (p q : ℚ) (M L : Nat) (rand : Nat → ℚ)
    (hM : 0 < M) (hL : 0 < L) :
    ((simulateRun p q M L rand).completed = true ↔
      (simulateRun p q M L rand).path.getLast? = some M) ∧
    ¬((simulateRun p q M L rand).completed = true ∧
      (simulateRun p q M L rand).reason = TerminationReason.iteration_limit) := by
  obtain ⟨hle, hexit, hmem, hchain, t, ht⟩ :=
    simLoop_spec p q M L rand (L - 0) 0 0 [] (by omega) (by omega) (by simp)
      (by simp [List.chain'_singleton])
  rcases hr : simLoop p q M L rand 0 0 [] with ⟨c, it, path0⟩
  rw [hr] at hmem
  simp only at hmem
  unfold simulateRun mkRunResult
  rw [hr]
  simp only
  by_cases hc : c = M
  · simp [hc]
  · simp only [if_neg hc]
    constructor
    · simp only [decide_eq_true_eq]
      constructor
      · intro h; exact absurd h hc
      · intro h
        exfalso
        have hv := List.mem_of_mem_getLast? h
        have := hmem M hv
        omega
    · intro ⟨h1, _⟩
      simp [hc] at h1

/-- Witness for C2 at a concrete instance. -/
theorem simulateRun_completed_iff_last_witness :
    ((simulateRun (1/2) (1/2) 2 5 (fun _ => 0)).completed = true ↔
      (simulateRun (1/2) (1/2) 2 5 (fun _ => 0)).path.getLast? = some 2) ∧
    ¬((simulateRun (1/2) (1/2) 2 5 (fun _ => 0)).completed = true ∧
      (simulateRun (1/2) (1/2) 2 5 (fun _ => 0)).reason =
        TerminationReason.iteration_limit) :=
  simulateRun_completed_iff_last (1/2) (1/2) 2 5 (fun _ => 0) (by decide) (by decide)

lemma stepCounter_one_one (r : ℚ) (c : Nat) (hr : r < 1) :
    stepCounter 1 1 r c = c + 1 := by
  unfold stepCounter cappedPUp pUp
  rw [if_pos]
  norm_num [hr]

/-- Claim C9: with `initialProb = 1`, `decayFactor = 1`, `targetValue = 3` and the
default iteration cap, for every stream of draws in `[0,1)` the run completes in
exactly 3 iterations with path `[0, 1, 2, 3]`. -/
theorem simulateRun_prob_one_target_three (rand : Nat → ℚ)
    (h : ∀ i, 0 ≤ rand i ∧ rand i < 1) :
    (simulateRun 1 1 3 defaultIterationSafetyLimit rand).path = [0, 1, 2, 3] ∧
    (simulateRun 1 1 3 defaultIterationSafetyLimit rand).completed = true ∧
    (simulateRun 1 1 3 defaultIterationSafetyLimit rand).iterations = 3 := by
  have hD : (0 : Nat) < defaultIterationSafetyLimit := by
    norm_num [defaultIterationSafetyLimit]
  have hD1 : (1 : Nat) < defaultIterationSafetyLimit := by
    norm_num [defaultIterationSafetyLimit]
  have hD2 : (2 : Nat) < defaultIterationSafetyLimit := by
    norm_num [defaultIterationSafetyLimit]
  have h1 : simLoop 1 1 3 defaultIterationSafetyLimit rand 0 0 [] =
      simLoop 1 1 3 defaultIterationSafetyLimit rand 1 1 [0] := by
    rw [simLoop, dif_pos ⟨by norm_num, hD⟩, stepCounter_one_one (rand 0) 0 (h 0).2]
    simp
  have h2 : simLoop 1 1 3 defaultIterationSafetyLimit rand 1 1 [0] =
      simLoop 1 1 3 defaultIterationSafetyLimit rand 2 2 [0, 1] := by
    rw [simLoop, dif_pos ⟨by norm_num, hD1⟩, stepCounter_one_one (rand 1) 1 (h 1).2]
    rfl
  have h3 : simLoop 1 1 3 defaultIterationSafetyLimit rand 2 2 [0, 1] =
      simLoop 1 1 3 defaultIterationSafetyLimit rand 3 3 [0, 1, 2] := by
    rw [simLoop, dif_pos ⟨by norm_num, hD2⟩, stepCounter_one_one (rand 2) 2 (h 2).2]
    rfl
  have h4 : simLoop 1 1 3 defaultIterationSafetyLimit rand 3 3 [0, 1, 2] =
      (3, 3, [0, 1, 2]) := by
    rw [simLoop, dif_neg (by norm_num)]
  unfold simulateRun mkRunResult
  rw [h1, h2, h3, h4]
  simp

/-- Witness for C9 at a concrete stream of draws. -/
theorem simulateRun_prob_one_target_three_witness :
    (simulateRun 1 1 3 defaultIterationSafetyLimit (fun _ => 0)).path = [0, 1, 2, 3] ∧
    (simulateRun 1 1 3 defaultIterationSafetyLimit (fun _ => 0)).completed = true ∧
    (simulateRun 1 1 3 defaultIterationSafetyLimit (fun _ => 0)).iterations = 3 :=
  simulateRun_prob_one_target_three (fun _ => 0)
    (fun _ => ⟨le_refl 0, by norm_num⟩)

/-! ## Density aggregation (`VisualizationEngine.js`)

The grids built by `createHeatmap` are modelled as functions of the cell
coordinates `(y, x)`: `verticalDensity[y][x]` and `horizontalDensity[y][x]` are
written as per-cell counting functions whose value is exactly what the nested
`forEach` loops of `_calculateFullDensity` / `_calculatePeakDensity` accumulate
into the corresponding array cell. -/

/-- `maxLength = Math.max(...runs.map(run => run.length))`
(VisualizationEngine.js line 62); `0` for no runs (that case returns early). -/
def maxLen (runs : List (List Nat)) : Nat :=
  (runs.map List.length).foldr max 0

/-- Per-run raw visit count of cell `(y, x)` in full-trace mode: the inner
`run.forEach((value, index) => { const x = floor(index*gridWidth/maxLength);
if (x < gridWidth) binCounts[value][x]++ })` of `_calculateFullDensity`
(VisualizationEngine.js lines 123-128).  The extra `Nat` argument is the running
index of the forEach. -/
def binCountAux (W L y x : Nat) : List Nat → Nat → Nat
  | [], _ => 0
  | v :: rest, i =>
      (if v = y ∧ i * W / L = x ∧ x < W then 1 else 0) + binCountAux W L y x rest (i + 1)

/-- `binCounts[y][x]` for one run (full-trace mode). -/
def binCount (run : List Nat) (W L y x : Nat) : Nat :=
  binCountAux W L y x run 0

/-- `verticalDensity[y][x]` in full-trace mode (VisualizationEngine.js lines
130-137): one mark per run whose `binCounts[y][x]` is positive. -/
def fullVertical (runs : List (List Nat)) (W L y x : Nat) : Nat :=
  runs.countP (fun run => decide (0 < binCount run W L y x))

/-- `horizontalDensity[y][x]` in full-trace mode (VisualizationEngine.js line
134): the sum of all runs' `binCounts[y][x]`. -/
def fullHorizontal (runs : List (List Nat)) (W L y x : Nat) : Nat :=
  (runs.map (fun run => binCount run W L y x)).sum

/-- Per-run folded peak of time bin `x` in peak-trajectory mode:
`peakValues[x] = Math.max(peakValues[x], value)` starting from `-1`, over the
indices falling in bin `x` (VisualizationEngine.js lines 97-106). -/
def peakAux (W L x : Nat) : List Nat → Nat → Int → Int
  | [], _, p => p
  | v :: rest, i, p =>
      peakAux W L x rest (i + 1) (if i * W / L = x ∧ x < W then max p (v : Int) else p)

/-- `peakValues[x]` for one run; `-1` when no index falls in bin `x`. -/
def peakValue (run : List Nat) (W L x : Nat) : Int :=
  peakAux W L x run 0 (-1)

/-- `peakCounts[x]` for one run: the number of indices falling in bin `x`
(VisualizationEngine.js line 104). -/
def peakCountAux (W L x : Nat) : List Nat → Nat → Nat
  | [], _ => 0
  | _ :: rest, i =>
      (if i * W / L = x ∧ x < W then 1 else 0) + peakCountAux W L x rest (i + 1)

/-- `peakCounts[x]` for one run. -/
def peakCount (run : List Nat) (W L x : Nat) : Nat :=
  peakCountAux W L x run 0

/-- `verticalDensity[y][x]` in peak-trajectory mode (VisualizationEngine.js
lines 108-113): one mark per run whose peak in bin `x` is exactly `y`
(the `peak >= 0` guard holds automatically since `y : Nat`). -/
def peakVertical (runs : List (List Nat)) (W L y x : Nat) : Nat :=
  runs.countP (fun run => decide (peakValue run W L x = (y : Int)))

/-- `horizontalDensity[y][x]` in peak-trajectory mode (VisualizationEngine.js
line 111): each run whose peak in bin `x` is `y` contributes `peakCounts[x]`. -/
def peakHorizontal (runs : List (List Nat)) (W L y x : Nat) : Nat :=
  (runs.map (fun run =>
    if peakValue run W L x = (y : Int) then peakCount run W L x else 0)).sum

lemma countP_le_sum_map {α : Type} (l : List α) (p : α → Bool) (f : α → Nat)
    (h : ∀ a ∈ l, p a = true → 1 ≤ f a) : l.countP p ≤ (l.map f).sum := by
  induction l with
  | nil => simp
  | cons a l ih =>
    rw [List.countP_cons]
    simp only [List.map_cons, List.sum_cons]
    have h1 := ih (fun b hb hpb => h b (List.mem_cons_of_mem a hb) hpb)
    by_cases hp : p a = true
    · have := h a (List.mem_cons_self a l) hp
      simp only [hp, if_true]
      omega
    · rw [if_neg hp]
      omega

lemma peakAux_of_count_zero (W L x : Nat) :
    ∀ (run : List Nat) (i : Nat) (p : Int),
      peakCountAux W L x run i = 0 → peakAux W L x run i p = p := by
  intro run
  induction run with
  | nil => intro i p _; rfl
  | cons v rest ih =>
    intro i p hc
    unfold peakCountAux at hc
    unfold peakAux
    by_cases hcond : i * W / L = x ∧ x < W
    · rw [if_pos hcond] at hc; omega
    · rw [if_neg hcond] at hc ⊢
      exact ih (i + 1) p (by omega)

lemma peakValue_eq_neg_one (run : List Nat) (W L x : Nat)
    (h : peakCount run W L x = 0) : peakValue run W L x = -1 :=
  peakAux_of_count_zero W L x run 0 (-1) h

/-- Claim C5: in both aggregation modes, every cell satisfies
`horizontalDensity[y][x] >= verticalDensity[y][x]`. -/
theorem horizontal_ge_vertical (runs : List (List Nat)) (W L y x : Nat) :
    fullVertical runs W L y x ≤ fullHorizontal runs W L y x ∧
    peakVertical runs W L y x ≤ peakHorizontal runs W L y x := by
  constructor
  · apply countP_le_sum_map
    intro run _ hp
    have := of_decide_eq_true hp
    omega
  · apply countP_le_sum_map
    intro run _ hp
    have hpk := of_decide_eq_true hp
    rw [if_pos hpk]
    by_contra hc
    have hc0 : peakCount run W L x = 0 := by omega
    rw [peakValue_eq_neg_one run W L x hc0] at hpk
    omega

lemma binCountAux_pos_guard (W L y x : Nat) :
    ∀ (run : List Nat) (i : Nat), 0 < binCountAux W L y x run i → x < W := by
  intro run
  induction run with
  | nil => intro i h; simp [binCountAux] at h
  | cons v rest ih =>
    intro i h
    unfold binCountAux at h
    by_cases hcond : v = y ∧ i * W / L = x ∧ x < W
    · exact hcond.2.2
    · rw [if_neg hcond] at h
      exact ih (i + 1) (by omega)

lemma binCountAux_zero_of_lt (L y x : Nat) (hL : 0 < L) :
    ∀ (run : List Nat) (i : Nat), x < i → binCountAux L L y x run i = 0 := by
  intro run
  induction run with
  | nil => intro i _; rfl
  | cons v rest ih =>
    intro i hx
    unfold binCountAux
    have hi : i * L / L = i := Nat.mul_div_cancel i hL
    have hcond : ¬ (v = y ∧ i * L / L = x ∧ x < L) := by
      rw [hi]; omega
    rw [if_neg hcond]
    simpa using ih (i + 1) (by omega)

/-- Without time compression (`gridWidth = maxLength`), within one run at most
one counter value `y` has a positive bin count in a given column `x`: the bin
map `index ↦ index * L / L` is the identity, so the column `x` sees exactly the
single value `run[x]`. -/
lemma binCountAux_unique (L x : Nat) (hL : 0 < L) :
    ∀ (run : List Nat) (i y y' : Nat),
      0 < binCountAux L L y x run i → 0 < binCountAux L L y' x run i → y = y' := by
  intro run
  induction run with
  | nil => intro i y y' h; simp [binCountAux] at h
  | cons v rest ih =>
    intro i y y' hy hy'
    unfold binCountAux at hy hy'
    have hi : i * L / L = i := Nat.mul_div_cancel i hL
    rw [hi] at hy hy'
    by_cases hix : i = x ∧ x < L
    · have hrest : ∀ z, binCountAux L L z x rest (i + 1) = 0 := fun z =>
        binCountAux_zero_of_lt L z x hL rest (i + 1) (by omega)
      rw [hrest y] at hy
      rw [hrest y'] at hy'
      have hvy : v = y := by
        by_contra hv
        rw [if_neg (by tauto)] at hy
        omega
      have hvy' : v = y' := by
        by_contra hv
        rw [if_neg (by tauto)] at hy'
        omega
      omega
    · have hy2 : 0 < binCountAux L L y x rest (i + 1) := by
        rw [if_neg (by tauto)] at hy
        omega
      have hy2' : 0 < binCountAux L L y' x rest (i + 1) := by
        rw [if_neg (by tauto)] at hy'
        omega
      exact ih (i + 1) y y' hy2 hy2'

/-- Within one run, at most one cell of a column carries a vertical mark when
`gridWidth = maxLength`. -/
lemma sum_ite_binCount_le_one (run : List Nat) (L x H : Nat) :
    (∑ y ∈ Finset.range H, if 0 < binCount run L L y x then 1 else 0) ≤ 1 := by
  rcases Nat.eq_zero_or_pos L with hL | hL
  · have hzero : ∀ y ∈ Finset.range H, (if 0 < binCount run L L y x then 1 else 0) = 0 := by
      intro y _
      rw [if_neg]
      intro hpos
      have := binCountAux_pos_guard L L y x run 0 hpos
      omega
    rw [Finset.sum_congr rfl hzero]
    simp
  · have hcard :
        ((Finset.range H).filter (fun y => 0 < binCount run L L y x)).card ≤ 1 := by
      rw [Finset.card_le_one]
      intro a ha b hb
      rw [Finset.mem_filter] at ha hb
      exact binCountAux_unique L x hL run 0 a b ha.2 hb.2
    calc (∑ y ∈ Finset.range H, if 0 < binCount run L L y x then 1 else 0)
        = ((Finset.range H).filter (fun y => 0 < binCount run L L y x)).card := by
          rw [Finset.sum_boole]
          simp
      _ ≤ 1 := hcard

lemma fullVertical_column_le_aux (L x H : Nat) :
    ∀ runs : List (List Nat),
      (∑ y ∈ Finset.range H, fullVertical runs L L y x) ≤ runs.length := by
  intro runs
  induction runs with
  | nil => simp [fullVertical]
  | cons r rs ih =>
    have hcons : ∀ y, fullVertical (r :: rs) L L y x =
        fullVertical rs L L y x + (if 0 < binCount r L L y x then 1 else 0) := by
      intro y
      unfold fullVertical
      rw [List.countP_cons]
      simp
    calc (∑ y ∈ Finset.range H, fullVertical (r :: rs) L L y x)
        = (∑ y ∈ Finset.range H, fullVertical rs L L y x) +
          (∑ y ∈ Finset.range H, if 0 < binCount r L L y x then 1 else 0) := by
          rw [← Finset.sum_add_distrib]
          exact Finset.sum_congr rfl (fun y _ => hcons y)
      _ ≤ rs.length + 1 :=
          Nat.add_le_add ih (sum_ite_binCount_le_one r L x H)
      _ = (r :: rs).length := by simp

/-- Claim C3 (amended): in full-trace mode, provided the longest run has length
at most `1000` (so `gridWidth = maxLength` and no time compression occurs),
every column sum of `verticalDensity` is at most `runs.length`. -/
theorem fullVertical_column_sum_le (runs : List (List Nat)) (H x : Nat)
    (hmax : maxLen runs ≤ 1000) :
    (∑ y ∈ Finset.range H,
      fullVertical runs (min (maxLen runs) 1000) (maxLen runs) y x) ≤ runs.length := by
  rw [min_eq_left hmax]
  exact fullVertical_column_le_aux (maxLen runs) x H runs

/-- Witness for the amended C3 at a concrete list of runs. -/
theorem fullVertical_column_sum_le_witness :
    (∑ y ∈ Finset.range 2,
      fullVertical [[0, 1, 0]] (min (maxLen [[0, 1, 0]]) 1000) (maxLen [[0, 1, 0]]) y 0) ≤
      [[0, 1, 0]].length :=
  fullVertical_column_sum_le [[0, 1, 0]] 2 0 (by decide)

/-- A single valid run of length `1001` (ending at its target value `2`): time
compression maps indices `0` and `1` to the same time bin `0`. -/
def longRun : List Nat :=
  (List.replicate 499 [0, 1]).flatten ++ [0, 1, 2]

set_option maxRecDepth 40000 in
/-- Counterexample to claim C3 as stated: with one run of length `1001` the grid
has `gridWidth = 1000 < maxLength`, indices `0` and `1` (values `0` and `1`)
share time bin `0`, and the column-0 sum of `verticalDensity` is `2`, exceeding
`runs.length = 1`. -/
theorem fullVertical_column_sum_counterexample :
    [longRun].length <
      (∑ y ∈ Finset.range 3,
        fullVertical [longRun] (min (maxLen [longRun]) 1000) (maxLen [longRun]) y 0) := by
  decide

/-! ## Color scaling (`_applyColorScaling`, VisualizationEngine.js lines 141-195)

`Math.sqrt` and `Math.log` are IEEE-double operations with no exact rational
counterpart; they are modelled as abstract function parameters `sq` and `lg`,
and theorems assume only the IEEE-exact facts they need (`sqrt 0 = 0`,
`log 1 = 0`).  The percentile branch builds
`uniqueValues = [...new Set(flatDensity)].sort((a,b) => a-b)`, maps each value
to `idx / (uniqueValues.length - 1)`, adds `0 ↦ 0`, and reads cells back with
`percentileMap.get(raw) || 0`.  When `uniqueValues.length = 1` the JS rank is
`0/0 = NaN`, which `|| 0` collapses to `0`; Lean's convention `q / 0 = 0`
yields the same value, so the rational model agrees with the JS result. -/

/-- The four `colorScaling` modes (VisualizationEngine.js lines 149-191). -/
inductive ColorScaling where
  | linear
  | sqrt
  | log
  | percentile
deriving DecidableEq, Repr

/-- `flatDensity = verticalDensity.flat().filter(d => d > 0)`
(VisualizationEngine.js line 142) for an `H × W` grid given as a function. -/
def flatDensity (vertical : Nat → Nat → Nat) (H W : Nat) : List Nat :=
  (((List.range H).map (fun y => (List.range W).map (fun x => vertical y x))).flatten).filter
    (fun v => decide (0 < v))

/-- `[...new Set(flatDensity)].sort((a, b) => a - b)`: the ascending list of
distinct observed values (VisualizationEngine.js line 169). -/
def uniqueValues (flat : List Nat) : List Nat :=
  flat.dedup.insertionSort (· ≤ ·)

/-- `Math.max(...l)` over a list of naturals, `0` when empty. -/
def listMax (l : List Nat) : Nat :=
  l.foldr max 0

/-- The value `percentileMap.get(v) || 0` (VisualizationEngine.js lines 170-179):
rank `idx / (uniqueValues.length - 1)` for observed non-zero values, `0` for the
raw value `0` (`percentileMap.set(0, 0)`), `0` otherwise (`undefined || 0`); the
single-distinct-value case `0 / 0` (JS `NaN`, collapsed by `|| 0`) is `0` in ℚ. -/
def percentileValue (flat : List Nat) (v : Nat) : ℚ :=
  if v = 0 then 0
  else if v ∈ uniqueValues flat then
    ((uniqueValues flat).indexOf v : ℚ) / (((uniqueValues flat).length : ℚ) - 1)
  else 0

/-- `_applyColorScaling` (VisualizationEngine.js lines 141-195) as a per-cell
function: zero grid when `flatDensity` is empty (line 147), otherwise the
selected transform of the raw cell value. -/
def applyColorScaling (sq lg : ℚ → ℚ) (scaling : ColorScaling)
    (vertical : Nat → Nat → Nat) (H W y x : Nat) : ℚ :=
  if (flatDensity vertical H W).length = 0 then 0
  else
    match scaling with
    | .sqrt => sq ((vertical y x : Nat) : ℚ) / sq ((listMax (flatDensity vertical H W) : Nat) : ℚ)
    | .log => lg (((vertical y x : Nat) : ℚ) + 1) / lg (((listMax (flatDensity vertical H W) : Nat) : ℚ) + 1)
    | .percentile => percentileValue (flatDensity vertical H W) (vertical y x)
    | .linear => ((vertical y x : Nat) : ℚ) / ((listMax (flatDensity vertical H W) : Nat) : ℚ)

/-- Claim C8: under every scaling kind a raw value of `0` normalizes to `0`
(assuming the IEEE-exact identities `sqrt 0 = 0` and `log 1 = 0`), and when the
raw grid has no non-zero cells every normalized cell is `0` (the early return at
VisualizationEngine.js line 147, before any division can occur). -/
theorem colorScaling_zero_to_zero (sq lg : ℚ → ℚ) (scaling : ColorScaling)
    (vertical : Nat → Nat → Nat) (H W y x : Nat)
    (hsq : sq 0 = 0) (hlg : lg 1 = 0) :
    (vertical y x = 0 → applyColorScaling sq lg scaling vertical H W y x = 0) ∧
    (flatDensity vertical H W = [] →
      ∀ y' x', applyColorScaling sq lg scaling vertical H W y' x' = 0) := by
  constructor
  · intro hzero
    unfold applyColorScaling
    by_cases hflat : (flatDensity vertical H W).length = 0
    · rw [if_pos hflat]
    · rw [if_neg hflat]
      cases scaling with
      | sqrt => rw [hzero]; rw [Nat.cast_zero, hsq, zero_div]
      | log => rw [hzero]; rw [Nat.cast_zero, zero_add, hlg, zero_div]
      | percentile => rw [hzero]; rfl
      | linear => rw [hzero]; rw [Nat.cast_zero, zero_div]
  · intro hflat y' x'
    unfold applyColorScaling
    rw [if_pos (by rw [hflat]; rfl)]

/-- Witness for C8 at a concrete instance. -/
theorem colorScaling_zero_to_zero_witness :
    ((fun _ _ => 0 : Nat → Nat → Nat) 0 0 = 0 →
      applyColorScaling (fun a => a) (fun a => a - 1) ColorScaling.sqrt
        (fun _ _ => 0) 1 1 0 0 = 0) ∧
    (flatDensity (fun _ _ => 0) 1 1 = [] →
      ∀ y' x', applyColorScaling (fun a => a) (fun a => a - 1) ColorScaling.sqrt
        (fun _ _ => 0) 1 1 y' x' = 0) :=
  colorScaling_zero_to_zero (fun a => a) (fun a => a - 1) ColorScaling.sqrt
    (fun _ _ => 0) 1 1 0 0 rfl (by norm_num)

lemma mem_flatDensity (vertical : Nat → Nat → Nat) (H W y x : Nat)
    (hy : y < H) (hx : x < W) (hpos : 0 < vertical y x) :
    vertical y x ∈ flatDensity vertical H W := by
  unfold flatDensity
  rw [List.mem_filter]
  constructor
  · rw [List.mem_flatten]
    refine ⟨(List.range W).map (fun z => vertical y z), ?_, ?_⟩
    · exact List.mem_map.mpr ⟨y, List.mem_range.mpr hy, rfl⟩
    · exact List.mem_map.mpr ⟨x, List.mem_range.mpr hx, rfl⟩
  · exact decide_eq_true hpos

lemma mem_uniqueValues {flat : List Nat} {v : Nat} :
    v ∈ uniqueValues flat ↔ v ∈ flat := by
  unfold uniqueValues
  rw [(List.perm_insertionSort (· ≤ ·) flat.dedup).mem_iff, List.mem_dedup]

lemma sorted_lt_uniqueValues (flat : List Nat) :
    List.Sorted (· < ·) (uniqueValues flat) :=
  (List.sorted_insertionSort (· ≤ ·) flat.dedup).lt_of_le
    ((List.perm_insertionSort (· ≤ ·) flat.dedup).nodup_iff.mpr (List.nodup_dedup flat))

/-- Claim C4 (amended): percentile scaling preserves strict order between cells
whose raw values are both non-zero, gives equal raw values equal normalized
values, and maps raw `0` to `0`.  (Strict order against a zero-valued cell is
not preserved: the smallest non-zero value has rank `0`, see the
counterexample.) -/
theorem percentile_rank_preserving_amended (sq lg : ℚ → ℚ)
    (vertical : Nat → Nat → Nat) (H W y1 x1 y2 x2 : Nat)
    (hy1 : y1 < H) (hx1 : x1 < W) (hy2 : y2 < H) (hx2 : x2 < W) :
    (0 < vertical y1 x1 → 0 < vertical y2 x2 → vertical y1 x1 < vertical y2 x2 →
      applyColorScaling sq lg ColorScaling.percentile vertical H W y1 x1 <
        applyColorScaling sq lg ColorScaling.percentile vertical H W y2 x2) ∧
    (vertical y1 x1 = vertical y2 x2 →
      applyColorScaling sq lg ColorScaling.percentile vertical H W y1 x1 =
        applyColorScaling sq lg ColorScaling.percentile vertical H W y2 x2) ∧
    (vertical y1 x1 = 0 →
      applyColorScaling sq lg ColorScaling.percentile vertical H W y1 x1 = 0) := by
  refine ⟨?_, ?_, ?_⟩
  · intro ha hb hab
    have haf : vertical y1 x1 ∈ flatDensity vertical H W :=
      mem_flatDensity vertical H W y1 x1 hy1 hx1 ha
    have hbf : vertical y2 x2 ∈ flatDensity vertical H W :=
      mem_flatDensity vertical H W y2 x2 hy2 hx2 hb
    have hflat : ¬ (flatDensity vertical H W).length = 0 := by
      intro h0
      rw [List.length_eq_zero] at h0
      rw [h0] at haf
      simp at haf
    unfold applyColorScaling
    rw [if_neg hflat, if_neg hflat]
    show percentileValue (flatDensity vertical H W) (vertical y1 x1) <
      percentileValue (flatDensity vertical H W) (vertical y2 x2)
    have hau : vertical y1 x1 ∈ uniqueValues (flatDensity vertical H W) :=
      mem_uniqueValues.mpr haf
    have hbu : vertical y2 x2 ∈ uniqueValues (flatDensity vertical H W) :=
      mem_uniqueValues.mpr hbf
    have h1ne : ¬ vertical y1 x1 = 0 := by omega
    have h2ne : ¬ vertical y2 x2 = 0 := by omega
    unfold percentileValue
    rw [if_neg h1ne, if_pos hau, if_neg h2ne, if_pos hbu]
    have hia : (uniqueValues (flatDensity vertical H W)).indexOf (vertical y1 x1) <
        (uniqueValues (flatDensity vertical H W)).length :=
      List.indexOf_lt_length.mpr hau
    have hib : (uniqueValues (flatDensity vertical H W)).indexOf (vertical y2 x2) <
        (uniqueValues (flatDensity vertical H W)).length :=
      List.indexOf_lt_length.mpr hbu
    have hsorted : List.Sorted (· < ·) (uniqueValues (flatDensity vertical H W)) :=
      sorted_lt_uniqueValues _
    have hmono := hsorted.get_strictMono
    have hga := List.indexOf_get hia
    have hgb := List.indexOf_get hib
    have hidx : (uniqueValues (flatDensity vertical H W)).indexOf (vertical y1 x1) <
        (uniqueValues (flatDensity vertical H W)).indexOf (vertical y2 x2) := by
      have hfin : (⟨_, hia⟩ : Fin (uniqueValues (flatDensity vertical H W)).length) <
          ⟨_, hib⟩ := by
        rw [← hmono.lt_iff_lt]
        rw [hga, hgb]
        exact hab
      exact hfin
    have hn2 : 2 ≤ (uniqueValues (flatDensity vertical H W)).length := by omega
    have hpos : (0 : ℚ) < ((uniqueValues (flatDensity vertical H W)).length : ℚ) - 1 := by
      have h2 : (2 : ℚ) ≤ ((uniqueValues (flatDensity vertical H W)).length : ℚ) := by
        exact_mod_cast hn2
      linarith
    exact (div_lt_div_iff_of_pos_right hpos).mpr (by exact_mod_cast hidx)
  · intro h
    unfold applyColorScaling
    rw [h]
  · intro h0
    by_cases hflat : (flatDensity vertical H W).length = 0
    · unfold applyColorScaling
      rw [if_pos hflat]
    · unfold applyColorScaling
      rw [if_neg hflat]
      show percentileValue (flatDensity vertical H W) (vertical y1 x1) = 0
      rw [h0]
      rfl

/-- A one-row raw grid with values `0, 1, 2` (`H = 1`, `W = 3`). -/
def cexGrid (y x : Nat) : Nat :=
  if y = 0 then [0, 1, 2].getD x 0 else 0

/-- Counterexample to claim C4 as stated: on the grid with raw values
`0, 1, 2`, cell `(0,0)` has raw `0` and cell `(0,1)` has raw `1` (a strict raw
inequality), but percentile scaling sends both to `0` (the smallest non-zero
value gets rank `0/(n-1) = 0`), so the strict inequality is not preserved. -/
theorem percentile_strict_counterexample :
    cexGrid 0 0 < cexGrid 0 1 ∧
    applyColorScaling (fun a => a) (fun a => a) ColorScaling.percentile cexGrid 1 3 0 0 =
      applyColorScaling (fun a => a) (fun a => a) ColorScaling.percentile cexGrid 1 3 0 1 := by
  have hflat : flatDensity cexGrid 1 3 = [1, 2] := by decide
  refine ⟨by decide, ?_⟩
  unfold applyColorScaling
  rw [hflat]
  rw [if_neg (by norm_num), if_neg (by norm_num)]
  show percentileValue [1, 2] (cexGrid 0 0) = percentileValue [1, 2] (cexGrid 0 1)
  have hc0 : cexGrid 0 0 = 0 := by decide
  have hc1 : cexGrid 0 1 = 1 := by decide
  rw [hc0, hc1]
  have h2 : percentileValue [1, 2] 1 = 0 := by
    unfold percentileValue
    rw [if_neg (by norm_num), if_pos (by decide)]
    have hu : uniqueValues [1, 2] = [1, 2] := by decide
    rw [hu]
    have hidx : List.indexOf 1 [1, 2] = 0 := by decide
    rw [hidx]
    norm_num
  rw [h2]
  rfl

/-- Witness for the amended C4 at a concrete instance. -/
theorem percentile_rank_preserving_amended_witness :
    applyColorScaling (fun a => a) (fun a => a) ColorScaling.percentile cexGrid 1 3 0 1 <
      applyColorScaling (fun a => a) (fun a => a) ColorScaling.percentile cexGrid 1 3 0 2 :=
  (percentile_rank_preserving_amended (fun a => a) (fun a => a) cexGrid 1 3 0 1 0 2
    (by decide) (by decide) (by decide) (by decide)).1 (by decide) (by decide) (by decide)

/-! ## Batch scheduler (`runMultipleSimulations`, SimulationEngine.js lines 123-297)

The loop's interactions with wall time and the external stop flag are modelled
by oracles indexed by the loop-iteration counter `k`: `elapsedAt k` is the value
of `performance.now() - startTime` read at the top of iteration `k`, and
`stopAt k` is the value of `this.shouldStop` read there.  The loop itself takes
a fuel parameter: every terminating JS execution of the `while` loop is the
fuel-indexed loop for a large enough fuel, and the theorems below hold for every
fuel value.  Progress callbacks, yielding and console logging do not affect the
returned data and are not modelled. -/

/-- `Number.MAX_SAFE_INTEGER`, the per-attempt iteration cap in the unlimited
phase (SimulationEngine.js line 185). -/
def maxSafeInteger : Nat := 9007199254740991

/-- The per-attempt iteration limit (SimulationEngine.js line 185):
`totalTimeLimit === null ? Number.MAX_SAFE_INTEGER : this.defaultIterationSafetyLimit`. -/
def iterationLimitFor : Option ℚ → Nat
  | none => maxSafeInteger
  | some _ => defaultIterationSafetyLimit

/-- `if (totalTimeLimit && elapsed > totalTimeLimit) break`
(SimulationEngine.js lines 162-165); `null` is modelled as `none`. -/
def totalLimitHit : Option ℚ → ℚ → Bool
  | some t, e => decide (t < e)
  | none, _ => false

/-- The condition under which the unlimited-phase `console.warn` fires
(SimulationEngine.js lines 168-170): the warn call sits inside
`if (!totalTimeLimit && elapsed > 60000)` and then inside
`if (elapsed > 120000)`, so it requires `elapsed > 120000`. -/
def unlimitedSafetyWarn : Option ℚ → ℚ → Bool
  | none, e => decide (60000 < e) && decide (120000 < e)
  | some _, _ => false

/-- The condition under which the unlimited-phase 5-minute safety `break` fires
(SimulationEngine.js lines 171-174): nested inside the `> 60000` and `> 120000`
checks, triggering at `elapsed > 300000`. -/
def unlimitedSafetyAbort : Option ℚ → ℚ → Bool
  | none, e => decide (60000 < e) && decide (120000 < e) && decide (300000 < e)
  | some _, _ => false

/-- Mutable state of the batch loop (SimulationEngine.js lines 142-148), plus
the loop-iteration counter `k` used to index the time/stop oracles. -/
structure BatchAccum where
  k : Nat
  allAttempts : List RunResult
  completedRuns : List (List Nat)
  failedRuns : List RunResult
  totalAttempts : Nat
  successfulRuns : Nat

/-- One loop-body pass after the attempt result arrives (SimulationEngine.js
lines 179, 195-202): `totalAttempts++`, `allAttempts.push(result)`, and either
`completedRuns.push(result.path); successfulRuns++` or
`failedRuns.push(result)`. -/
def batchStep (st : BatchAccum) (result : RunResult) : BatchAccum :=
  { k := st.k + 1
    allAttempts := st.allAttempts ++ [result]
    completedRuns := if result.completed then st.completedRuns ++ [result.path]
                     else st.completedRuns
    failedRuns := if result.completed then st.failedRuns else st.failedRuns ++ [result]
    totalAttempts := st.totalAttempts + 1
    successfulRuns := if result.completed then st.successfulRuns + 1
                      else st.successfulRuns }

/-- The `while (successfulRuns < numRuns && !this.shouldStop)` loop
(SimulationEngine.js lines 159-247) with its three exits: the while condition,
the total-time-limit break, and the unlimited-phase safety break.
`randStream k` is the stream of draws consumed by the attempt of iteration `k`. -/
def batchLoop (numRuns : Nat) (initialProb decayFactor : ℚ) (maxValue : Nat)
    (totalTimeLimit : Option ℚ) (elapsedAt : Nat → ℚ) (stopAt : Nat → Bool)
    (randStream : Nat → Nat → ℚ) : Nat → BatchAccum → BatchAccum
  | 0, st => st
  | fuel + 1, st =>
    if st.successfulRuns < numRuns ∧ stopAt st.k = false then
      if totalLimitHit totalTimeLimit (elapsedAt st.k) = true then st
      else if unlimitedSafetyAbort totalTimeLimit (elapsedAt st.k) = true then st
      else
        batchLoop numRuns initialProb decayFactor maxValue totalTimeLimit elapsedAt
          stopAt randStream fuel
          (batchStep st (simulateRun initialProb decayFactor maxValue
            (iterationLimitFor totalTimeLimit) (randStream st.k)))
    else st

/-- The result object of `runMultipleSimulations` (SimulationEngine.js lines
258-296).  Wall-clock fields (`totalTimeMs`, `averageRunTime`), the phase
label and the redundant aliases (`allPaths`, `completionRate`, ...) of other
fields are omitted. -/
structure BatchResults where
  completedRuns : List (List Nat)
  allAttempts : List RunResult
  failedRuns : List RunResult
  desiredSuccesses : Nat
  actualSuccesses : Nat
  totalAttempts : Nat
  reachedDesiredCount : Bool
  hasAnyData : Bool

/-- Continuation initialization (SimulationEngine.js lines 142-148):
`existingResults ? [...existingResults.xs] : []` for the three lists and
`existingResults ? existingResults.totalAttempts : 0`,
`existingResults ? existingResults.actualSuccesses : 0` for the counters. -/
def initAccum : Option BatchResults → BatchAccum
  | some e =>
    { k := 0
      allAttempts := e.allAttempts
      completedRuns := e.completedRuns
      failedRuns := e.failedRuns
      totalAttempts := e.totalAttempts
      successfulRuns := e.actualSuccesses }
  | none =>
    { k := 0, allAttempts := [], completedRuns := [], failedRuns := []
      totalAttempts := 0, successfulRuns := 0 }

/-- `runMultipleSimulations` (SimulationEngine.js lines 123-297): initialize
from `existingResults` when continuing, run the loop, assemble the results. -/
def runMultipleSimulations (numRuns : Nat) (initialProb decayFactor : ℚ)
    (maxValue : Nat) (totalTimeLimit : Option ℚ)
    (existingResults : Option BatchResults) (elapsedAt : Nat → ℚ)
    (stopAt : Nat → Bool) (randStream : Nat → Nat → ℚ) (fuel : Nat) : BatchResults :=
  let st := batchLoop numRuns initialProb decayFactor maxValue totalTimeLimit
    elapsedAt stopAt randStream fuel (initAccum existingResults)
  { completedRuns := st.completedRuns
    allAttempts := st.allAttempts
    failedRuns := st.failedRuns
    desiredSuccesses := numRuns
    actualSuccesses := st.successfulRuns
    totalAttempts := st.totalAttempts
    reachedDesiredCount := decide (st.successfulRuns = numRuns)
    hasAnyData := decide (0 < st.successfulRuns) }

lemma batchStep_extends (st : BatchAccum) (r : RunResult) :
    st.totalAttempts ≤ (batchStep st r).totalAttempts ∧
    st.successfulRuns ≤ (batchStep st r).successfulRuns ∧
    (∃ t, (batchStep st r).allAttempts = st.allAttempts ++ t) ∧
    (∃ t, (batchStep st r).completedRuns = st.completedRuns ++ t) ∧
    (∃ t, (batchStep st r).failedRuns = st.failedRuns ++ t) := by
  refine ⟨?_, ?_, ⟨[r], rfl⟩, ?_, ?_⟩
  · show st.totalAttempts ≤ st.totalAttempts + 1
    omega
  · show st.successfulRuns ≤
      if r.completed then st.successfulRuns + 1 else st.successfulRuns
    split <;> omega
  · show ∃ t,
      (if r.completed then st.completedRuns ++ [r.path] else st.completedRuns) =
        st.completedRuns ++ t
    split
    · exact ⟨[r.path], rfl⟩
    · exact ⟨[], by simp⟩
  · show ∃ t,
      (if r.completed then st.failedRuns else st.failedRuns ++ [r]) =
        st.failedRuns ++ t
    split
    · exact ⟨[], by simp⟩
    · exact ⟨[r], rfl⟩

lemma batchLoop_extends (numRuns : Nat) (p q : ℚ) (M : Nat) (tl : Option ℚ)
    (elapsedAt : Nat → ℚ) (stopAt : Nat → Bool) (randStream : Nat → Nat → ℚ) :
    ∀ (fuel : Nat) (st : BatchAccum),
      st.totalAttempts ≤
        (batchLoop numRuns p q M tl elapsedAt stopAt randStream fuel st).totalAttempts ∧
      st.successfulRuns ≤
        (batchLoop numRuns p q M tl elapsedAt stopAt randStream fuel st).successfulRuns ∧
      (∃ t, (batchLoop numRuns p q M tl elapsedAt stopAt randStream fuel st).allAttempts =
        st.allAttempts ++ t) ∧
      (∃ t, (batchLoop numRuns p q M tl elapsedAt stopAt randStream fuel st).completedRuns =
        st.completedRuns ++ t) ∧
      (∃ t, (batchLoop numRuns p q M tl elapsedAt stopAt randStream fuel st).failedRuns =
        st.failedRuns ++ t) := by
  intro fuel
  induction fuel with
  | zero =>
    intro st
    exact ⟨le_refl _, le_refl _, ⟨[], by simp [batchLoop]⟩, ⟨[], by simp [batchLoop]⟩,
      ⟨[], by simp [batchLoop]⟩⟩
  | succ fuel ih =>
    intro st
    unfold batchLoop
    by_cases h1 : st.successfulRuns < numRuns ∧ stopAt st.k = false
    · rw [if_pos h1]
      by_cases h2 : totalLimitHit tl (elapsedAt st.k) = true
      · rw [if_pos h2]
        exact ⟨le_refl _, le_refl _, ⟨[], by simp⟩, ⟨[], by simp⟩, ⟨[], by simp⟩⟩
      · rw [if_neg h2]
        by_cases h3 : unlimitedSafetyAbort tl (elapsedAt st.k) = true
        · rw [if_pos h3]
          exact ⟨le_refl _, le_refl _, ⟨[], by simp⟩, ⟨[], by simp⟩, ⟨[], by simp⟩⟩
        · rw [if_neg h3]
          obtain ⟨ha1, ha2, ⟨t1, ht1⟩, ⟨t2, ht2⟩, ⟨t3, ht3⟩⟩ :=
            ih (batchStep st (simulateRun p q M (iterationLimitFor tl) (randStream st.k)))
          obtain ⟨hb1, hb2, ⟨u1, hu1⟩, ⟨u2, hu2⟩, ⟨u3, hu3⟩⟩ :=
            batchStep_extends st (simulateRun p q M (iterationLimitFor tl) (randStream st.k))
          refine ⟨by omega, by omega, ⟨u1 ++ t1, ?_⟩, ⟨u2 ++ t2, ?_⟩, ⟨u3 ++ t3, ?_⟩⟩
          · rw [ht1, hu1, List.append_assoc]
          · rw [ht2, hu2, List.append_assoc]
          · rw [ht3, hu3, List.append_assoc]
    · rw [if_neg h1]
      exact ⟨le_refl _, le_refl _, ⟨[], by simp⟩, ⟨[], by simp⟩, ⟨[], by simp⟩⟩

/-- Claim C6: when `runMultipleSimulations` continues from `existingResults`,
the returned `totalAttempts` and `actualSuccesses` are at least the prior
counts, and the prior `allAttempts`, `completedRuns` and `failedRuns` lists are
unchanged, in-order prefixes of the returned lists — for every choice of
parameters, time/stop oracles, random streams and loop fuel. -/
theorem continuation_preserves_prior (numRuns : Nat) (p q : ℚ) (M : Nat)
    (tl : Option ℚ) (e : BatchResults) (elapsedAt : Nat → ℚ) (stopAt : Nat → Bool)
    (randStream : Nat → Nat → ℚ) (fuel : Nat) :
    e.totalAttempts ≤ (runMultipleSimulations numRuns p q M tl (some e) elapsedAt
      stopAt randStream fuel).totalAttempts ∧
    e.actualSuccesses ≤ (runMultipleSimulations numRuns p q M tl (some e) elapsedAt
      stopAt randStream fuel).actualSuccesses ∧
    (∃ t, (runMultipleSimulations numRuns p q M tl (some e) elapsedAt
      stopAt randStream fuel).allAttempts = e.allAttempts ++ t) ∧
    (∃ t, (runMultipleSimulations numRuns p q M tl (some e) elapsedAt
      stopAt randStream fuel).completedRuns = e.completedRuns ++ t) ∧
    (∃ t, (runMultipleSimulations numRuns p q M tl (some e) elapsedAt
      stopAt randStream fuel).failedRuns = e.failedRuns ++ t) := by
  obtain ⟨h1, h2, h3, h4, h5⟩ :=
    batchLoop_extends numRuns p q M tl elapsedAt stopAt randStream fuel (initAccum (some e))
  exact ⟨h1, h2, h3, h4, h5⟩

/-- Claim C10 (code bug): the unlimited-phase soft warning does not fire once
elapsed time exceeds 60 seconds, contrary to the spec and to the code's own
comment ("warn after 60 seconds"): at elapsed = 90000 ms the warn predicate is
false because the `console.warn` call is nested inside `elapsed > 120000`.
The hard abort at `elapsed > 300000` behaves as claimed. -/
theorem unlimited_soft_warning_gap :
    (60000 : ℚ) < 90000 ∧ unlimitedSafetyWarn none 90000 = false ∧
    unlimitedSafetyAbort none 300001 = true := by
  refine ⟨by norm_num, ?_, ?_⟩
  · show (decide ((60000 : ℚ) < 90000) && decide ((120000 : ℚ) < 90000)) = false
    rw [decide_eq_false (by norm_num : ¬ (120000 : ℚ) < 90000)]
    simp
  · show (decide ((60000 : ℚ) < 300001) && decide ((120000 : ℚ) < 300001) &&
      decide ((300000 : ℚ) < 300001)) = true
    rw [decide_eq_true (by norm_num : (60000 : ℚ) < 300001),
      decide_eq_true (by norm_num : (120000 : ℚ) < 300001),
      decide_eq_true (by norm_num : (300000 : ℚ) < 300001)]
    rfl

end ProbVis
